import Mathlib

/-!
Shallow embedding of the Velvet review-rule engine core:
the results collector (src/engine/results.ts), the DSL reporting
functions (src/dsl/functions.ts), the evaluator (src/engine/evaluator.ts),
the git change-model builder (src/dsl/git.ts), the review-context
composer (src/dsl/index.ts) and the rule-file locator (src/engine/loader.ts).
-/

namespace Velvet

/-- Severity levels of findings, mirroring the string union
"message" | "warn" | "fail" in src/dsl/types.ts. -/
inductive ResultLevel where
  | message
  | warn
  | fail
deriving Repr, DecidableEq

/-- One finding, mirroring interface ReviewResult in src/dsl/types.ts
(level, message, optional file, optional line). -/
structure ReviewResult where
  level : ResultLevel
  message : String
  file : Option String
  line : Option Nat
deriving Repr, DecidableEq

/-- The collector state, mirroring interface ReviewResults in
src/dsl/types.ts: four lists (messages, warnings, failures, markdowns). -/
structure ReviewResults where
  messages : List ReviewResult
  warnings : List ReviewResult
  failures : List ReviewResult
  markdowns : List String
deriving Repr, DecidableEq

namespace ResultsCollector

/-- The initial collector state (all four lists empty), as set up by the
ResultsCollector constructor in src/engine/results.ts. -/
def emptyResults : ReviewResults := ⟨[], [], [], []⟩

/-- ResultsCollector.reset: replaces the state with fresh empty lists. -/
def reset (_s : ReviewResults) : ReviewResults := ⟨[], [], [], []⟩

/-- ResultsCollector.addMessage: pushes one message-level finding. -/
def addMessage (s : ReviewResults) (msg : String) (file : Option String)
    (line : Option Nat) : ReviewResults :=
  ⟨s.messages ++ [⟨ResultLevel.message, msg, file, line⟩],
   s.warnings, s.failures, s.markdowns⟩

/-- ResultsCollector.addWarning: pushes one warn-level finding. -/
def addWarning (s : ReviewResults) (msg : String) (file : Option String)
    (line : Option Nat) : ReviewResults :=
  ⟨s.messages,
   s.warnings ++ [⟨ResultLevel.warn, msg, file, line⟩],
   s.failures, s.markdowns⟩

/-- ResultsCollector.addFailure: pushes one fail-level finding. -/
def addFailure (s : ReviewResults) (msg : String) (file : Option String)
    (line : Option Nat) : ReviewResults :=
  ⟨s.messages, s.warnings,
   s.failures ++ [⟨ResultLevel.fail, msg, file, line⟩],
   s.markdowns⟩

/-- ResultsCollector.addMarkdown: pushes one raw markdown block. -/
def addMarkdown (s : ReviewResults) (content : String) : ReviewResults :=
  ⟨s.messages, s.warnings, s.failures, s.markdowns ++ [content]⟩

/-- ResultsCollector.hasFailures: true when the failures list is non-empty. -/
def hasFailures (s : ReviewResults) : Bool := s.failures.length > 0

/-- ResultsCollector.hasWarnings: true when the warnings list is non-empty. -/
def hasWarnings (s : ReviewResults) : Bool := s.warnings.length > 0

/-- ResultsCollector.getExitCode: 1 when there are failures, 0 otherwise. -/
def getExitCode (s : ReviewResults) : Nat := if hasFailures s then 1 else 0

/-- ResultsCollector.getTotalCount: messages + warnings + failures. -/
def getTotalCount (s : ReviewResults) : Nat :=
  s.messages.length + s.warnings.length + s.failures.length

end ResultsCollector

/-- One call made by rule code into the ambient reporting functions of
src/dsl/functions.ts, each of which delegates to the global collector. -/
inductive Action where
  | message (msg : String) (file : Option String) (line : Option Nat)
  | warn (msg : String) (file : Option String) (line : Option Nat)
  | fail (msg : String) (file : Option String) (line : Option Nat)
  | markdown (content : String)
deriving Repr, DecidableEq

/-- Effect of one reporting call on the collector state, following
message/warn/fail/markdown in src/dsl/functions.ts. -/
def Action.apply (s : ReviewResults) : Action → ReviewResults
  | Action.message m f l => ResultsCollector.addMessage s m f l
  | Action.warn m f l => ResultsCollector.addWarning s m f l
  | Action.fail m f l => ResultsCollector.addFailure s m f l
  | Action.markdown c => ResultsCollector.addMarkdown s c

/-- Whether an action is a fail() call. -/
def Action.isFail : Action → Bool
  | Action.fail _ _ _ => true
  | _ => false

/-- Runs a sequence of reporting calls against a collector state. -/
def runActions (s : ReviewResults) (acts : List Action) : ReviewResults :=
  acts.foldl Action.apply s

/-- The value a rule function throws, mirroring the two branches of the
catch clause in RuleEvaluator.executeReviewFile: an Error carries a
message and a stack, anything else is stringified. -/
inductive ThrownValue where
  | err (message : String) (stack : String)
  | other (text : String)
deriving Repr, DecidableEq

/-- A rule function, modelled by the reporting calls it performs in order
and the value it throws afterwards, if any. -/
structure RuleFunction where
  actions : List Action
  thrown : Option ThrownValue
deriving Repr, DecidableEq

/-- The failure message the evaluator wraps a thrown value in, mirroring
the template strings in RuleEvaluator.executeReviewFile. -/
def wrapThrown : ThrownValue → String
  | ThrownValue.err m st =>
      "Review execution failed: " ++ m ++ "\n\nStack trace:\n" ++ st
  | ThrownValue.other t =>
      "Review execution failed with unknown error: " ++ t

/-- RuleEvaluator.executeReviewFile: runs the rule function and converts
anything it throws into one additional fail-level finding. -/
def executeReviewFile (s : ReviewResults) (rule : RuleFunction) : ReviewResults :=
  let s1 := runActions s rule.actions
  match rule.thrown with
  | none => s1
  | some v => ResultsCollector.addFailure s1 (wrapThrown v) none none

/-- The final verdict, mirroring the passed/exitCode fields of
EvaluationResult in src/engine/evaluator.ts. -/
structure EvaluationResult where
  results : ReviewResults
  passed : Bool
  exitCode : Nat
deriving Repr, DecidableEq

/-- RuleEvaluator.evaluate, restricted to the collector-facing steps:
reset the collector, execute the rule function with error containment,
and read off passed and exitCode from the final collector state. -/
def evaluate (rule : RuleFunction) : EvaluationResult :=
  let s0 := ResultsCollector.reset ResultsCollector.emptyResults
  let s := executeReviewFile s0 rule
  ⟨s, !ResultsCollector.hasFailures s, ResultsCollector.getExitCode s⟩

/-- The fail-level findings a sequence of reporting calls contributes. -/
def failuresOf (acts : List Action) : List ReviewResult :=
  acts.filterMap fun a =>
    match a with
    | Action.fail m f l => some ⟨ResultLevel.fail, m, f, l⟩
    | _ => none

theorem runActions_failures (acts : List Action) :
    ∀ s : ReviewResults, (runActions s acts).failures = s.failures ++ failuresOf acts := by
  induction acts with
  | nil => intro s; simp [runActions, failuresOf]
  | cons a rest ih =>
      intro s
      cases a with
      | message m f l =>
          simp [runActions, failuresOf, List.foldl_cons, Action.apply,
            ResultsCollector.addMessage] at *
          exact ih _
      | warn m f l =>
          simp [runActions, failuresOf, List.foldl_cons, Action.apply,
            ResultsCollector.addWarning] at *
          exact ih _
      | fail m f l =>
          have h := ih (ResultsCollector.addFailure s m f l)
          simp [runActions, List.foldl_cons, Action.apply] at h ⊢
          rw [h]
          simp [ResultsCollector.addFailure, failuresOf]
      | markdown c =>
          simp [runActions, failuresOf, List.foldl_cons, Action.apply,
            ResultsCollector.addMarkdown] at *
          exact ih _

theorem failuresOf_empty_of_no_fail (acts : List Action)
    (h : ∀ a ∈ acts, a.isFail = false) : failuresOf acts = [] := by
  induction acts with
  | nil => simp [failuresOf]
  | cons a rest ih =>
      have ha := h a (List.mem_cons_self a rest)
      have hrest : ∀ b ∈ rest, b.isFail = false :=
        fun b hb => h b (List.mem_cons_of_mem a hb)
      cases a with
      | fail m f l => simp [Action.isFail] at ha
      | message m f l => simpa [failuresOf] using ih hrest
      | warn m f l => simpa [failuresOf] using ih hrest
      | markdown c => simpa [failuresOf] using ih hrest

theorem failuresOf_ne_nil_of_fail (acts : List Action)
    (h : ∃ a ∈ acts, a.isFail = true) : failuresOf acts ≠ [] := by
  obtain ⟨a, ha, hfail⟩ := h
  cases a with
  | fail m f l =>
      intro hnil
      have : (⟨ResultLevel.fail, m, f, l⟩ : ReviewResult) ∈ failuresOf acts := by
        simp [failuresOf, List.mem_filterMap]
        exact ⟨Action.fail m f l, ha, rfl⟩
      rw [hnil] at this
      exact List.not_mem_nil _ this
  | message m f l => simp [Action.isFail] at hfail
  | warn m f l => simp [Action.isFail] at hfail
  | markdown c => simp [Action.isFail] at hfail

/-- One entry of the diff summary the version-control backend reports,
mirroring the fields of simple-git's DiffResultTextFile that
Git.initialize in src/dsl/git.ts reads: file, insertions, deletions,
changes and the binary flag. -/
structure DiffFile where
  file : String
  insertions : Nat
  deletions : Nat
  changes : Nat
  binary : Bool
deriving Repr, DecidableEq

/-- One commit as stored in GitDSL.commits (src/dsl/types.ts); the date
is kept as the backend's raw string, Date parsing being outside this
model. -/
structure GitCommit where
  sha : String
  author : String
  date : String
  message : String
deriving Repr, DecidableEq

/-- One entry of GitDSL.diffs (src/dsl/types.ts). -/
structure GitDiff where
  file : String
  additions : Nat
  deletions : Nat
  changes : Nat
deriving Repr, DecidableEq

/-- The state of the Git class in src/dsl/git.ts after construction and
initialization: the three file buckets, the commits and the diffs. -/
structure GitState where
  modified_files : List String
  created_files : List String
  deleted_files : List String
  commits : List GitCommit
  diffs : List GitDiff
deriving Repr, DecidableEq

/-- The Git class field initializers: all five collections empty. -/
def emptyGit : GitState := ⟨[], [], [], [], []⟩

/-- The created-classification test of Git.initialize:
insertions > 0 and deletions === 0. -/
def createdB (f : DiffFile) : Bool :=
  decide (0 < f.insertions) && decide (f.deletions = 0)

/-- The deleted-classification test of Git.initialize:
deletions > 0 and insertions === 0. -/
def deletedB (f : DiffFile) : Bool :=
  decide (0 < f.deletions) && decide (f.insertions = 0)

/-- The modified-classification test of Git.initialize: reached when
neither of the first two branches fired and some change is nonzero. -/
def modifiedB (f : DiffFile) : Bool :=
  !createdB f && !deletedB f && (decide (0 < f.insertions) || decide (0 < f.deletions))

/-- The diff entry Git.initialize stores for a non-binary file. -/
def toGitDiff (f : DiffFile) : GitDiff :=
  ⟨f.file, f.insertions, f.deletions, f.changes⟩

/-- The if-else-if classification chain in the body of the loop of
Git.initialize. -/
def classifyInto (s : GitState) (f : DiffFile) : GitState :=
  if createdB f then
    ⟨s.modified_files, s.created_files ++ [f.file], s.deleted_files,
      s.commits, s.diffs⟩
  else if deletedB f then
    ⟨s.modified_files, s.created_files, s.deleted_files ++ [f.file],
      s.commits, s.diffs⟩
  else if decide (0 < f.insertions) || decide (0 < f.deletions) then
    ⟨s.modified_files ++ [f.file], s.created_files, s.deleted_files,
      s.commits, s.diffs⟩
  else
    s

/-- One iteration of the for-loop of Git.initialize: skip binary files,
classify the rest, and record the diff entry. -/
def processFile (s : GitState) (f : DiffFile) : GitState :=
  if f.binary then s
  else
    let s1 := classifyInto s f
    ⟨s1.modified_files, s1.created_files, s1.deleted_files, s1.commits,
      s1.diffs ++ [toGitDiff f]⟩

/-- One entry of the commit log the backend reports (simple-git log). -/
structure LogEntry where
  hash : String
  author_name : String
  date : String
  message : String
deriving Repr, DecidableEq

/-- The mapping Git.initialize applies to each log entry. -/
def logToCommit (e : LogEntry) : GitCommit :=
  ⟨e.hash, e.author_name, e.date, e.message⟩

/-- Git.initialize with the two awaited backend calls made explicit: the
diff summary first, then the commit log; the try-catch keeps whatever was
assigned before the failing call and never re-raises. A failing diff
summary leaves everything empty; a failing log call leaves the buckets
and diffs already built from the diff summary in place. -/
def initializeGit (diffRes : Except Unit (List DiffFile))
    (logRes : Except Unit (List LogEntry)) : GitState :=
  match diffRes with
  | Except.error _ => emptyGit
  | Except.ok files =>
    let s := files.foldl processFile emptyGit
    match logRes with
    | Except.error _ => s
    | Except.ok entries =>
      ⟨s.modified_files, s.created_files, s.deleted_files,
        entries.map logToCommit, s.diffs⟩

theorem processFile_created (s : GitState) (f : DiffFile) :
    (processFile s f).created_files
      = s.created_files ++ (if !f.binary && createdB f then [f.file] else []) := by
  unfold processFile classifyInto
  cases hb : f.binary
  · cases hc : createdB f
    · cases hd : deletedB f
      · cases hm : (decide (0 < f.insertions) || decide (0 < f.deletions)) <;>
          simp [hb, hc, hd, hm]
      · simp [hb, hc, hd]
    · simp [hb, hc]
  · simp [hb]

theorem processFile_deleted (s : GitState) (f : DiffFile) :
    (processFile s f).deleted_files
      = s.deleted_files ++ (if !f.binary && deletedB f then [f.file] else []) := by
  unfold processFile classifyInto
  cases hb : f.binary
  · cases hc : createdB f
    · cases hd : deletedB f
      · cases hm : (decide (0 < f.insertions) || decide (0 < f.deletions)) <;>
          simp [hb, hc, hd, hm]
      · simp [hb, hc, hd]
    · have hcd : deletedB f = false := by
        rcases hboth : deletedB f with _ | _
        · rfl
        · exfalso
          simp [createdB] at hc
          simp [deletedB] at hboth
          omega
      simp [hb, hc, hcd]
  · simp [hb]

theorem processFile_modified (s : GitState) (f : DiffFile) :
    (processFile s f).modified_files
      = s.modified_files ++ (if !f.binary && modifiedB f then [f.file] else []) := by
  unfold processFile classifyInto
  cases hb : f.binary
  · cases hc : createdB f
    · cases hd : deletedB f
      · cases hm : (decide (0 < f.insertions) || decide (0 < f.deletions)) <;>
          simp [hb, hc, hd, hm, modifiedB]
      · simp [hb, hc, hd, modifiedB]
    · simp [hb, hc, modifiedB]
  · simp [hb]

theorem processFile_commits (s : GitState) (f : DiffFile) :
    (processFile s f).commits = s.commits := by
  unfold processFile classifyInto
  cases hb : f.binary
  · cases hc : createdB f
    · cases hd : deletedB f
      · cases hm : (decide (0 < f.insertions) || decide (0 < f.deletions)) <;>
          simp [hb, hc, hd, hm]
      · simp [hb, hc, hd]
    · simp [hb, hc]
  · simp [hb]

theorem processFile_diffs (s : GitState) (f : DiffFile) :
    (processFile s f).diffs
      = s.diffs ++ (if !f.binary then [toGitDiff f] else []) := by
  unfold processFile classifyInto
  cases hb : f.binary
  · cases hc : createdB f
    · cases hd : deletedB f
      · cases hm : (decide (0 < f.insertions) || decide (0 < f.deletions)) <;>
          simp [hb, hc, hd, hm]
      · simp [hb, hc, hd]
    · simp [hb, hc]
  · simp [hb]

theorem foldl_processFile_created (files : List DiffFile) :
    ∀ s : GitState, (files.foldl processFile s).created_files
      = s.created_files
        ++ (files.filter (fun f => !f.binary && createdB f)).map DiffFile.file := by
  induction files with
  | nil => intro s; simp
  | cons a rest ih =>
      intro s
      rw [List.foldl_cons, ih (processFile s a), processFile_created s a]
      cases h : (!a.binary && createdB a) <;> simp [List.filter_cons, h]

theorem foldl_processFile_deleted (files : List DiffFile) :
    ∀ s : GitState, (files.foldl processFile s).deleted_files
      = s.deleted_files
        ++ (files.filter (fun f => !f.binary && deletedB f)).map DiffFile.file := by
  induction files with
  | nil => intro s; simp
  | cons a rest ih =>
      intro s
      rw [List.foldl_cons, ih (processFile s a), processFile_deleted s a]
      cases h : (!a.binary && deletedB a) <;> simp [List.filter_cons, h]

theorem foldl_processFile_modified (files : List DiffFile) :
    ∀ s : GitState, (files.foldl processFile s).modified_files
      = s.modified_files
        ++ (files.filter (fun f => !f.binary && modifiedB f)).map DiffFile.file := by
  induction files with
  | nil => intro s; simp
  | cons a rest ih =>
      intro s
      rw [List.foldl_cons, ih (processFile s a), processFile_modified s a]
      cases h : (!a.binary && modifiedB a) <;> simp [List.filter_cons, h]

theorem foldl_processFile_commits (files : List DiffFile) :
    ∀ s : GitState, (files.foldl processFile s).commits = s.commits := by
  induction files with
  | nil => intro s; simp
  | cons a rest ih =>
      intro s
      rw [List.foldl_cons, ih (processFile s a), processFile_commits s a]

theorem foldl_processFile_diffs (files : List DiffFile) :
    ∀ s : GitState, (files.foldl processFile s).diffs
      = s.diffs ++ (files.filter (fun f => !f.binary)).map toGitDiff := by
  induction files with
  | nil => intro s; simp
  | cons a rest ih =>
      intro s
      rw [List.foldl_cons, ih (processFile s a), processFile_diffs s a]
      cases h : (!a.binary) <;> simp [List.filter_cons, h]

theorem initializeGit_ok_buckets (files : List DiffFile)
    (logRes : Except Unit (List LogEntry)) :
    (initializeGit (Except.ok files) logRes).created_files
        = (files.filter (fun f => !f.binary && createdB f)).map DiffFile.file ∧
    (initializeGit (Except.ok files) logRes).deleted_files
        = (files.filter (fun f => !f.binary && deletedB f)).map DiffFile.file ∧
    (initializeGit (Except.ok files) logRes).modified_files
        = (files.filter (fun f => !f.binary && modifiedB f)).map DiffFile.file ∧
    (initializeGit (Except.ok files) logRes).diffs
        = (files.filter (fun f => !f.binary)).map toGitDiff := by
  cases logRes with
  | error e =>
      refine ⟨?_, ?_, ?_, ?_⟩ <;>
        simp [initializeGit, foldl_processFile_created, foldl_processFile_deleted,
          foldl_processFile_modified, foldl_processFile_diffs, emptyGit]
  | ok entries =>
      refine ⟨?_, ?_, ?_, ?_⟩ <;>
        simp [initializeGit, foldl_processFile_created, foldl_processFile_deleted,
          foldl_processFile_modified, foldl_processFile_diffs, emptyGit]

theorem mem_filter_map_file_iff (files : List DiffFile)
    (hnodup : (files.map DiffFile.file).Nodup) (q : DiffFile → Bool)
    (f : DiffFile) (hf : f ∈ files) :
    f.file ∈ (files.filter q).map DiffFile.file ↔ q f = true := by
  constructor
  · intro hm
    simp only [List.mem_map, List.mem_filter] at hm
    obtain ⟨g, ⟨hg, hq⟩, hgp⟩ := hm
    have hgf : g = f := List.inj_on_of_nodup_map hnodup hg hf hgp
    rwa [hgf] at hq
  · intro hq
    simp only [List.mem_map, List.mem_filter]
    exact ⟨f, ⟨hf, hq⟩, rfl⟩

/-- C2: classification of each non-binary diff entry into exactly the
created, deleted or modified bucket according to its insertion and
deletion counts, zero-change entries going to no bucket; and the spec
scenario on three concrete entries. -/
theorem C2_classification :
    (∀ (s : GitState) (f : DiffFile), f.binary = false →
      (0 < f.insertions ∧ f.deletions = 0 →
        (processFile s f).created_files = s.created_files ++ [f.file] ∧
        (processFile s f).modified_files = s.modified_files ∧
        (processFile s f).deleted_files = s.deleted_files) ∧
      (0 < f.deletions ∧ f.insertions = 0 →
        (processFile s f).deleted_files = s.deleted_files ++ [f.file] ∧
        (processFile s f).created_files = s.created_files ∧
        (processFile s f).modified_files = s.modified_files) ∧
      (0 < f.insertions ∧ 0 < f.deletions →
        (processFile s f).modified_files = s.modified_files ++ [f.file] ∧
        (processFile s f).created_files = s.created_files ∧
        (processFile s f).deleted_files = s.deleted_files) ∧
      (f.insertions = 0 ∧ f.deletions = 0 →
        (processFile s f).created_files = s.created_files ∧
        (processFile s f).modified_files = s.modified_files ∧
        (processFile s f).deleted_files = s.deleted_files)) ∧
    ((initializeGit (Except.ok
        [⟨"a.ts", 10, 0, 10, false⟩, ⟨"b.ts", 0, 5, 5, false⟩,
          ⟨"c.ts", 3, 2, 5, false⟩]) (Except.ok [])).created_files = ["a.ts"] ∧
      (initializeGit (Except.ok
        [⟨"a.ts", 10, 0, 10, false⟩, ⟨"b.ts", 0, 5, 5, false⟩,
          ⟨"c.ts", 3, 2, 5, false⟩]) (Except.ok [])).deleted_files = ["b.ts"] ∧
      (initializeGit (Except.ok
        [⟨"a.ts", 10, 0, 10, false⟩, ⟨"b.ts", 0, 5, 5, false⟩,
          ⟨"c.ts", 3, 2, 5, false⟩]) (Except.ok [])).modified_files = ["c.ts"]) := by
  constructor
  · intro s f hb
    refine ⟨?_, ?_, ?_, ?_⟩
    · rintro ⟨h1, h2⟩
      have hc : createdB f = true := by simp [createdB, h1, h2]
      have hd : deletedB f = false := by simp [deletedB, h2]
      have hm : modifiedB f = false := by simp [modifiedB, hc]
      rw [processFile_created s f, processFile_modified s f, processFile_deleted s f]
      simp [hb, hc, hd, hm]
    · rintro ⟨h1, h2⟩
      have hc : createdB f = false := by simp [createdB, h2]
      have hd : deletedB f = true := by simp [deletedB, h1, h2]
      have hm : modifiedB f = false := by simp [modifiedB, hd]
      rw [processFile_created s f, processFile_modified s f, processFile_deleted s f]
      simp [hb, hc, hd, hm]
    · rintro ⟨h1, h2⟩
      have hc : createdB f = false := by
        have hne : ¬ (f.deletions = 0) := by omega
        simp [createdB, hne]
      have hd : deletedB f = false := by
        have hne : ¬ (f.insertions = 0) := by omega
        simp [deletedB, hne]
      have hm : modifiedB f = true := by simp [modifiedB, hc, hd, h1]
      rw [processFile_created s f, processFile_modified s f, processFile_deleted s f]
      simp [hb, hc, hd, hm]
    · rintro ⟨h1, h2⟩
      have hc : createdB f = false := by simp [createdB, h1]
      have hd : deletedB f = false := by simp [deletedB, h2]
      have hm : modifiedB f = false := by simp [modifiedB, hc, hd, h1, h2]
      rw [processFile_created s f, processFile_modified s f, processFile_deleted s f]
      simp [hb, hc, hd, hm]
  · exact ⟨by decide, by decide, by decide⟩

/-- Witness for C2: the created case at a concrete state and entry, and
the concrete three-entry scenario. -/
theorem C2_classification_witness :
    (processFile emptyGit ⟨"a.ts", 10, 0, 10, false⟩).created_files
        = emptyGit.created_files ++ ["a.ts"] ∧
    (processFile emptyGit ⟨"a.ts", 10, 0, 10, false⟩).modified_files
        = emptyGit.modified_files ∧
    (processFile emptyGit ⟨"a.ts", 10, 0, 10, false⟩).deleted_files
        = emptyGit.deleted_files :=
  (C2_classification.1 emptyGit ⟨"a.ts", 10, 0, 10, false⟩ rfl).1 (by decide)

/-- A path sits in exactly one of the three classification buckets. -/
def inExactlyOneBucket (s : GitState) (p : String) : Prop :=
  (p ∈ s.created_files ∧ p ∉ s.modified_files ∧ p ∉ s.deleted_files) ∨
  (p ∈ s.modified_files ∧ p ∉ s.created_files ∧ p ∉ s.deleted_files) ∨
  (p ∈ s.deleted_files ∧ p ∉ s.created_files ∧ p ∉ s.modified_files)

/-- C6 counterexample: a non-binary diff entry with zero insertions and
zero deletions is recorded in diffs yet classified into no bucket, so its
path appears in the diffs sequence but in none of the three buckets,
refuting that every path in diffs appears in exactly one of them. -/
theorem C6_counterexample :
    "a.txt" ∈ (initializeGit (Except.ok [⟨"a.txt", 0, 0, 0, false⟩])
        (Except.ok [])).diffs.map GitDiff.file ∧
    "a.txt" ∉ (initializeGit (Except.ok [⟨"a.txt", 0, 0, 0, false⟩])
        (Except.ok [])).created_files ∧
    "a.txt" ∉ (initializeGit (Except.ok [⟨"a.txt", 0, 0, 0, false⟩])
        (Except.ok [])).modified_files ∧
    "a.txt" ∉ (initializeGit (Except.ok [⟨"a.txt", 0, 0, 0, false⟩])
        (Except.ok [])).deleted_files := by
  refine ⟨?_, ?_, ?_, ?_⟩ <;> decide

/-- C6 amended: after construction from pathwise-distinct diff entries,
every path in the diffs sequence comes from a non-binary entry; when that
entry has a nonzero change it appears in exactly one of the three
buckets, and when it has zero insertions and zero deletions it appears in
no bucket (binary entries are excluded from diffs and all buckets). -/
theorem C6_diffs_bucket_invariant (files : List DiffFile)
    (logRes : Except Unit (List LogEntry))
    (hnodup : (files.map DiffFile.file).Nodup) :
    ∀ p ∈ (initializeGit (Except.ok files) logRes).diffs.map GitDiff.file,
      ∃ f, f ∈ files ∧ f.file = p ∧ f.binary = false ∧
        ((0 < f.insertions ∨ 0 < f.deletions) →
          inExactlyOneBucket (initializeGit (Except.ok files) logRes) p) ∧
        (f.insertions = 0 ∧ f.deletions = 0 →
          p ∉ (initializeGit (Except.ok files) logRes).created_files ∧
          p ∉ (initializeGit (Except.ok files) logRes).modified_files ∧
          p ∉ (initializeGit (Except.ok files) logRes).deleted_files) := by
  obtain ⟨hce, hde, hme, hdiffs⟩ := initializeGit_ok_buckets files logRes
  intro p hp
  rw [hdiffs] at hp
  simp only [List.map_map, List.mem_map, List.mem_filter] at hp
  obtain ⟨f, ⟨hf, hbin⟩, hfp⟩ := hp
  have hfp' : f.file = p := hfp
  refine ⟨f, hf, hfp', by simpa using hbin, ?_, ?_⟩
  · intro hnz
    subst hfp'
    rw [inExactlyOneBucket, hce, hde, hme]
    rw [mem_filter_map_file_iff files hnodup _ f hf,
      mem_filter_map_file_iff files hnodup _ f hf,
      mem_filter_map_file_iff files hnodup _ f hf]
    cases hc : createdB f with
    | true =>
        left
        refine ⟨by simp [hbin, hc], ?_, ?_⟩
        · simp [modifiedB, hc]
        · have hd : deletedB f = false := by
            simp [createdB] at hc
            simp [deletedB]
            omega
          simp [hd]
    | false =>
        cases hd : deletedB f with
        | true =>
            right; right
            refine ⟨by simp [hbin, hd], by simp [hc], by simp [modifiedB, hd]⟩
        | false =>
            right; left
            have hm : modifiedB f = true := by
              rcases hnz with h1 | h1 <;> simp [modifiedB, hc, hd, h1]
            exact ⟨by simp [hbin, hm], by simp [hc], by simp [hd]⟩
  · rintro ⟨h1, h2⟩
    subst hfp'
    rw [hce, hde, hme]
    rw [mem_filter_map_file_iff files hnodup _ f hf,
      mem_filter_map_file_iff files hnodup _ f hf,
      mem_filter_map_file_iff files hnodup _ f hf]
    refine ⟨by simp [createdB, h1], by simp [modifiedB, createdB, deletedB, h1, h2],
      by simp [deletedB, h2]⟩

/-- Witness for C6 amended: a concrete two-entry change set in which the
modified entry "c.ts" lands in exactly the modified bucket. -/
theorem C6_diffs_bucket_invariant_witness :
    inExactlyOneBucket
      (initializeGit (Except.ok
        [⟨"a.ts", 10, 0, 10, false⟩, ⟨"c.ts", 3, 2, 5, false⟩]) (Except.ok []))
      "c.ts" := by
  have h := C6_diffs_bucket_invariant
    [⟨"a.ts", 10, 0, 10, false⟩, ⟨"c.ts", 3, 2, 5, false⟩] (Except.ok [])
    (by decide) "c.ts" (by decide)
  obtain ⟨f, hf, hfp, hbin, hnz, hz⟩ := h
  have hfc : f = ⟨"c.ts", 3, 2, 5, false⟩ := by
    simp only [List.mem_cons, List.mem_singleton] at hf
    rcases hf with heq | heq
    · rw [heq] at hfp
      exact absurd hfp (by decide)
    · simpa using heq
  apply hnz
  rw [hfc]
  decide

/-- The composed review context, mirroring interface ReviewDSL in
src/dsl/types.ts; the optional github sub-context is a type parameter
since none of its internals matter to the claims. -/
structure ReviewDSL (γ : Type) where
  git : GitState
  github : Option γ
  isGitHub : Bool
deriving Repr, DecidableEq

/-- createReviewContext in src/dsl/index.ts with the adapter effects made
explicit: when GitHub is enabled and detected, the adapter object is
constructed and assigned first and then initialized, inside one try-catch
whose handler only logs; a throwing constructor leaves the local variable
undefined, while a failing adapter initialization leaves the
already-assigned constructed object g0 in the context. -/
def createReviewContext (γ : Type) (git : GitState)
    (enableGitHub isGitHub : Bool) (ctorRes : Except Unit γ)
    (initRes : γ → Except Unit γ) : ReviewDSL γ :=
  let github : Option γ :=
    if enableGitHub && isGitHub then
      match ctorRes with
      | Except.error _ => none
      | Except.ok g0 =>
        match initRes g0 with
        | Except.ok g1 => some g1
        | Except.error _ => some g0
    else none
  ⟨git, github, isGitHub⟩

/-- C4 counterexample: the commit-log backend call errors after the diff
summary succeeded, and the ChangeSet keeps the already-classified file,
refuting that all five collections are left empty; and a failing adapter
initialization leaves the constructed adapter object in the composed
context, refuting that the PR context is absent. -/
theorem C4_counterexample :
    (initializeGit (Except.ok [⟨"a.ts", 1, 0, 1, false⟩])
        (Except.error ())).created_files = ["a.ts"] ∧
    (createReviewContext Unit emptyGit true true (Except.ok ())
        (fun _ => Except.error ())).github = some () :=
  ⟨by decide, rfl⟩

/-- C4 amended: initializeGit is total (never raising); an error in the
diff-summary query leaves all five collections empty, while an error in
the later commit-log query yields the same ChangeSet as an empty log,
with commits empty but buckets and diffs retaining the entries built from
the successful diff summary. When the adapter's initialize fails, the
composed context keeps the constructed-but-uninitialized adapter object
in its github field (no PR data was fetched) and the ChangeSet is passed
through unchanged and fully populated. -/
theorem C4_degraded_context :
    (∀ logRes : Except Unit (List LogEntry),
      initializeGit (Except.error ()) logRes = emptyGit) ∧
    (∀ files : List DiffFile,
      initializeGit (Except.ok files) (Except.error ())
        = initializeGit (Except.ok files) (Except.ok []) ∧
      (initializeGit (Except.ok files) (Except.error ())).commits = []) ∧
    (∀ (γ : Type) (git : GitState) (g0 : γ) (initRes : γ → Except Unit γ),
      initRes g0 = Except.error () →
      (createReviewContext γ git true true (Except.ok g0) initRes).github = some g0 ∧
      (createReviewContext γ git true true (Except.ok g0) initRes).git = git) := by
  refine ⟨fun logRes => by cases logRes <;> rfl, ?_, ?_⟩
  · intro files
    have hc := foldl_processFile_commits files emptyGit
    constructor
    · show files.foldl processFile emptyGit = _
      cases hs : files.foldl processFile emptyGit with
      | mk m c d co di =>
          rw [hs] at hc
          simp only [emptyGit] at hc
          simp only [initializeGit, hs, List.map_nil]
          rw [hc]
    · show (files.foldl processFile emptyGit).commits = []
      rw [hc]
      rfl
  · intro γ git g0 initRes h
    exact ⟨by simp [createReviewContext, h], rfl⟩

/-- Witness for C4 amended at concrete inputs: a failing adapter
initialization over Unit keeps the constructed object and the one-file
ChangeSet. -/
theorem C4_degraded_context_witness :
    (createReviewContext Unit
        (initializeGit (Except.ok [⟨"a.ts", 1, 0, 1, false⟩]) (Except.ok []))
        true true (Except.ok ()) (fun _ => Except.error ())).github = some () ∧
    (createReviewContext Unit
        (initializeGit (Except.ok [⟨"a.ts", 1, 0, 1, false⟩]) (Except.ok []))
        true true (Except.ok ()) (fun _ => Except.error ())).git
      = initializeGit (Except.ok [⟨"a.ts", 1, 0, 1, false⟩]) (Except.ok []) :=
  C4_degraded_context.2.2 Unit
    (initializeGit (Except.ok [⟨"a.ts", 1, 0, 1, false⟩]) (Except.ok []))
    () (fun _ => Except.error ()) rfl

/-- Model of the external micromatch library call micromatch(list,
patterns): with m the single-pattern glob matcher (kept abstract), it
returns the files of the list that match at least one of the patterns,
the OR semantics the spec assigns to the pattern interface. -/
def micromatch (m : String → String → Bool) (files : List String)
    (patterns : List String) : List String :=
  files.filter (fun f => patterns.any (fun p => m p f))

/-- The value object returned by Git.fileMatch in src/dsl/git.ts; the
matches closure captures the three unfiltered file lists, modelled here
by storing their concatenation. -/
structure FileMatch where
  edited : List String
  created : List String
  deleted : List String
  allFiles : List String
deriving Repr, DecidableEq

/-- Git.fileMatch: filters each of the three buckets by the patterns and
captures the unfiltered union for the matches predicate. -/
def fileMatch (m : String → String → Bool) (s : GitState)
    (patterns : List String) : FileMatch :=
  ⟨micromatch m s.modified_files patterns,
   micromatch m s.created_files patterns,
   micromatch m s.deleted_files patterns,
   s.modified_files ++ s.created_files ++ s.deleted_files⟩

/-- The matches closure of the FileMatch value: tests the single pattern
against the entire unfiltered union of the three buckets. -/
def FileMatch.matches (m : String → String → Bool) (fm : FileMatch)
    (p : String) : Bool :=
  (micromatch m fm.allFiles [p]).length > 0

/-- FileMatch.getAll: the matched edited and created files. -/
def FileMatch.getAll (fm : FileMatch) : List String :=
  fm.edited ++ fm.created

/-- Git.hasChanges: true when the fileMatch result has any non-empty
edited, created or deleted subset. -/
def hasChanges (m : String → String → Bool) (s : GitState)
    (patterns : List String) : Bool :=
  let fm := fileMatch m s patterns
  fm.edited.length > 0 || fm.created.length > 0 || fm.deleted.length > 0

/-- C5: hasChanges on a single pattern is true iff fileMatch yields a
non-empty edited, created or deleted subset, and this agrees with the
standalone matches predicate computed over the entire unfiltered union of
modified, created and deleted files: the two code paths are equivalent. -/
theorem C5_hasChanges_matches_equiv (m : String → String → Bool)
    (s : GitState) (p : String) :
    (hasChanges m s [p] = true ↔
      ((fileMatch m s [p]).edited ≠ [] ∨ (fileMatch m s [p]).created ≠ [] ∨
        (fileMatch m s [p]).deleted ≠ [])) ∧
    hasChanges m s [p] = FileMatch.matches m (fileMatch m s [p]) p := by
  constructor
  · simp only [hasChanges, Bool.or_eq_true, decide_eq_true_eq,
      gt_iff_lt, List.length_pos]
    tauto
  · rw [Bool.eq_iff_iff]
    simp only [hasChanges, FileMatch.matches, fileMatch, micromatch,
      List.filter_append, Bool.or_eq_true, decide_eq_true_eq,
      List.length_append]
    omega

/-- C7: fileMatch has pattern-OR semantics: every path in the result of a
single pattern is in the result of the two-pattern query, so the
two-pattern getAll is a superset of the union of the single-pattern
getAll sets. -/
theorem C7_fileMatch_pattern_or (m : String → String → Bool) (s : GitState)
    (p1 p2 : String) (x : String)
    (hx : x ∈ (fileMatch m s [p1]).getAll ∨ x ∈ (fileMatch m s [p2]).getAll) :
    x ∈ (fileMatch m s [p1, p2]).getAll := by
  simp only [fileMatch, FileMatch.getAll, micromatch, List.mem_append,
    List.mem_filter, List.any_cons, List.any_nil, Bool.or_eq_true,
    Bool.or_false] at hx ⊢
  tauto

/-- Witness for C7 at a concrete matcher (pattern equality), change set
and patterns. -/
theorem C7_fileMatch_pattern_or_witness :
    "a" ∈ (fileMatch (fun p f => p == f) ⟨["a"], ["b"], [], [], []⟩
      ["a", "b"]).getAll :=
  C7_fileMatch_pattern_or (fun p f => p == f) ⟨["a"], ["b"], [], [], []⟩
    "a" "b" "a" (by decide)

/-- One probe target of the rule-file locator: project-relative path,
absolute path, whether it exists on disk and whether it is TypeScript,
mirroring interface ReviewFileInfo in src/engine/loader.ts (the exists
field is named fileExists here). -/
structure ReviewFileInfo where
  path : String
  absolutePath : String
  fileExists : Bool
  isTypeScript : Bool
deriving Repr, DecidableEq

/-- Model of node path.join on two segments. -/
def pathJoin (a b : String) : String := a ++ "/" ++ b

/-- The fixed ordered candidate extension list of findReviewFile. -/
def extensionsList : List String := [".ts", ".js", ".mts", ".mjs"]

/-- The probe loop of findReviewFile in src/engine/loader.ts over the
candidate extensions, with exF the filesystem existence test: returns the
first existing reviewfile candidate, else the reviewfile.ts default
marked non-existent. -/
def searchDefaults (exF : String → Bool) (projectRoot : String) :
    List String → ReviewFileInfo
  | [] =>
      ⟨"reviewfile.ts", pathJoin projectRoot "reviewfile.ts", false, true⟩
  | ext :: rest =>
      let fileName := "reviewfile" ++ ext
      let filePath := pathJoin projectRoot fileName
      if exF filePath then ⟨fileName, filePath, true, ext == ".ts" || ext == ".mts"⟩
      else searchDefaults exF projectRoot rest

/-- findReviewFile in src/engine/loader.ts: an explicitly provided path
is resolved against the project root and probed as-is; otherwise the
default candidates are probed in order. -/
def findReviewFile (exF : String → Bool) (providedPath : Option String)
    (projectRoot : String) : ReviewFileInfo :=
  match providedPath with
  | some p =>
      let absolutePath := if p.startsWith "/" then p else pathJoin projectRoot p
      ⟨p, absolutePath, exF absolutePath, absolutePath.endsWith ".ts"⟩
  | none => searchDefaults exF projectRoot extensionsList

theorem searchDefaults_eq_find (exF : String → Bool) (root : String) :
    ∀ exts : List String,
      searchDefaults exF root exts
        = match exts.find? (fun ext => exF (pathJoin root ("reviewfile" ++ ext))) with
          | some ext =>
              ⟨"reviewfile" ++ ext, pathJoin root ("reviewfile" ++ ext), true,
                ext == ".ts" || ext == ".mts"⟩
          | none => ⟨"reviewfile.ts", pathJoin root "reviewfile.ts", false, true⟩ := by
  intro exts
  induction exts with
  | nil => rfl
  | cons ext rest ih =>
      cases h : exF (pathJoin root ("reviewfile" ++ ext)) with
      | true => simp [searchDefaults, List.find?_cons, h]
      | false => simp [searchDefaults, List.find?_cons, h, ih]

/-- C9: with no explicit path the locator probes reviewfile.ts,
reviewfile.js, reviewfile.mts, reviewfile.mjs in that fixed order in the
project root and returns the first that exists; when none exists it
returns the first candidate reviewfile.ts marked non-existent instead of
failing. -/
theorem C9_locator_defaults (exF : String → Bool) (root : String) :
    (∀ ext : String,
      extensionsList.find? (fun e => exF (pathJoin root ("reviewfile" ++ e)))
          = some ext →
      findReviewFile exF none root
        = ⟨"reviewfile" ++ ext, pathJoin root ("reviewfile" ++ ext), true,
            ext == ".ts" || ext == ".mts"⟩) ∧
    (extensionsList.find? (fun e => exF (pathJoin root ("reviewfile" ++ e)))
        = none →
      findReviewFile exF none root
        = ⟨"reviewfile.ts", pathJoin root "reviewfile.ts", false, true⟩) := by
  constructor
  · intro ext h
    show searchDefaults exF root extensionsList = _
    rw [searchDefaults_eq_find exF root extensionsList, h]
  · intro h
    show searchDefaults exF root extensionsList = _
    rw [searchDefaults_eq_find exF root extensionsList, h]

/-- Witness for C9: with only root/reviewfile.js on disk the locator
returns it marked existing and non-TypeScript; with an empty disk it
returns the reviewfile.ts default marked non-existent. -/
theorem C9_locator_defaults_witness :
    findReviewFile (fun s => s == "root/reviewfile.js") none "root"
        = ⟨"reviewfile" ++ ".js", pathJoin "root" ("reviewfile" ++ ".js"), true,
            ".js" == ".ts" || ".js" == ".mts"⟩ ∧
    findReviewFile (fun _ => false) none "root"
        = ⟨"reviewfile.ts", pathJoin "root" "reviewfile.ts", false, true⟩ :=
  ⟨(C9_locator_defaults (fun s => s == "root/reviewfile.js") "root").1 ".js"
      (by decide),
    (C9_locator_defaults (fun _ => false) "root").2 (by decide)⟩

/-- C8: reset() is idempotent: for every collector state, calling reset
twice in a row yields the same state as calling it once, namely the empty
state in which all four internal lists are empty. -/
theorem C8_reset_idempotent (s : ReviewResults) :
    ResultsCollector.reset (ResultsCollector.reset s) = ResultsCollector.reset s ∧
    (ResultsCollector.reset s).messages = [] ∧
    (ResultsCollector.reset s).warnings = [] ∧
    (ResultsCollector.reset s).failures = [] ∧
    (ResultsCollector.reset s).markdowns = [] :=
  ⟨rfl, rfl, rfl, rfl, rfl⟩

/-- C10: each of the four collector append operations mutates only its own
list: addMessage appends exactly one entry to messages and leaves
warnings, failures and markdowns unchanged, and symmetrically for
addWarning, addFailure and addMarkdown. -/
theorem C10_append_frame (s : ReviewResults) (msg : String)
    (file : Option String) (line : Option Nat) (content : String) :
    ((ResultsCollector.addMessage s msg file line).messages
        = s.messages ++ [⟨ResultLevel.message, msg, file, line⟩] ∧
      (ResultsCollector.addMessage s msg file line).warnings = s.warnings ∧
      (ResultsCollector.addMessage s msg file line).failures = s.failures ∧
      (ResultsCollector.addMessage s msg file line).markdowns = s.markdowns) ∧
    ((ResultsCollector.addWarning s msg file line).warnings
        = s.warnings ++ [⟨ResultLevel.warn, msg, file, line⟩] ∧
      (ResultsCollector.addWarning s msg file line).messages = s.messages ∧
      (ResultsCollector.addWarning s msg file line).failures = s.failures ∧
      (ResultsCollector.addWarning s msg file line).markdowns = s.markdowns) ∧
    ((ResultsCollector.addFailure s msg file line).failures
        = s.failures ++ [⟨ResultLevel.fail, msg, file, line⟩] ∧
      (ResultsCollector.addFailure s msg file line).messages = s.messages ∧
      (ResultsCollector.addFailure s msg file line).warnings = s.warnings ∧
      (ResultsCollector.addFailure s msg file line).markdowns = s.markdowns) ∧
    ((ResultsCollector.addMarkdown s content).markdowns
        = s.markdowns ++ [content] ∧
      (ResultsCollector.addMarkdown s content).messages = s.messages ∧
      (ResultsCollector.addMarkdown s content).warnings = s.warnings ∧
      (ResultsCollector.addMarkdown s content).failures = s.failures) :=
  ⟨⟨rfl, rfl, rfl, rfl⟩, ⟨rfl, rfl, rfl, rfl⟩, ⟨rfl, rfl, rfl, rfl⟩,
    ⟨rfl, rfl, rfl, rfl⟩⟩

/-- C3: passed is false iff at least one failure-severity finding was
recorded and exitCode encodes passed as 0 or 1; any action sequence
containing at least one fail() call, arbitrarily interleaved with
message() and warn() calls, yields hasFailures true and exit code 1,
while sequences without fail() calls always yield exit code 0. -/
theorem C3_exit_code_semantics :
    (∀ rule : RuleFunction,
      ((evaluate rule).passed = false ↔ (evaluate rule).results.failures ≠ []) ∧
      (evaluate rule).exitCode = (if (evaluate rule).passed then 0 else 1)) ∧
    (∀ acts : List Action, (∃ a ∈ acts, a.isFail = true) →
      ResultsCollector.hasFailures
        (runActions (ResultsCollector.reset ResultsCollector.emptyResults) acts) = true ∧
      ResultsCollector.getExitCode
        (runActions (ResultsCollector.reset ResultsCollector.emptyResults) acts) = 1) ∧
    (∀ acts : List Action, (∀ a ∈ acts, a.isFail = false) →
      ResultsCollector.getExitCode
        (runActions (ResultsCollector.reset ResultsCollector.emptyResults) acts) = 0) := by
  refine ⟨?_, ?_, ?_⟩
  · intro rule
    have hres : (evaluate rule).results
        = executeReviewFile (ResultsCollector.reset ResultsCollector.emptyResults) rule := rfl
    have hpassed : (evaluate rule).passed
        = !ResultsCollector.hasFailures
            (executeReviewFile (ResultsCollector.reset ResultsCollector.emptyResults) rule) := rfl
    have hexit : (evaluate rule).exitCode
        = ResultsCollector.getExitCode
            (executeReviewFile (ResultsCollector.reset ResultsCollector.emptyResults) rule) := rfl
    rw [hres, hpassed, hexit]
    constructor
    · simp [ResultsCollector.hasFailures, List.length_pos]
    · cases h : ResultsCollector.hasFailures (executeReviewFile
        (ResultsCollector.reset ResultsCollector.emptyResults) rule) with
      | true => simp [ResultsCollector.getExitCode, h]
      | false => simp [ResultsCollector.getExitCode, h]
  · intro acts hfail
    have hne : failuresOf acts ≠ [] := failuresOf_ne_nil_of_fail acts hfail
    have hch := runActions_failures acts (ResultsCollector.reset ResultsCollector.emptyResults)
    have hfl : (runActions (ResultsCollector.reset ResultsCollector.emptyResults) acts).failures
        = failuresOf acts := by
      rw [hch]; rfl
    have hpos : 0 < (runActions (ResultsCollector.reset ResultsCollector.emptyResults)
        acts).failures.length := by
      rw [hfl]
      exact List.length_pos.mpr hne
    constructor
    · simp [ResultsCollector.hasFailures, hpos]
    · simp [ResultsCollector.getExitCode, ResultsCollector.hasFailures, hpos]
  · intro acts hnofail
    have hch := runActions_failures acts (ResultsCollector.reset ResultsCollector.emptyResults)
    have hfl : (runActions (ResultsCollector.reset ResultsCollector.emptyResults) acts).failures
        = failuresOf acts := by
      rw [hch]; rfl
    rw [ResultsCollector.getExitCode, ResultsCollector.hasFailures, hfl,
      failuresOf_empty_of_no_fail acts hnofail]
    rfl

/-- Witness for C3 at a concrete interleaving: a warn, a fail and a
message give hasFailures true and exit code 1, and a message alone gives
exit code 0. -/
theorem C3_exit_code_semantics_witness :
    ResultsCollector.hasFailures
      (runActions (ResultsCollector.reset ResultsCollector.emptyResults)
        [Action.warn "w" none none, Action.fail "f" none none,
          Action.message "m" none none]) = true ∧
    ResultsCollector.getExitCode
      (runActions (ResultsCollector.reset ResultsCollector.emptyResults)
        [Action.warn "w" none none, Action.fail "f" none none,
          Action.message "m" none none]) = 1 ∧
    ResultsCollector.getExitCode
      (runActions (ResultsCollector.reset ResultsCollector.emptyResults)
        [Action.message "m" none none]) = 0 := by
  have h1 := C3_exit_code_semantics.2.1
    [Action.warn "w" none none, Action.fail "f" none none,
      Action.message "m" none none]
    ⟨Action.fail "f" none none, by simp, rfl⟩
  have h2 := C3_exit_code_semantics.2.2 [Action.message "m" none none]
    (by intro a ha; simp at ha; subst ha; rfl)
  exact ⟨h1.1, h1.2, h2⟩

/-- C1: evaluate is a total function of the rule (a thrown error never
propagates), and a rule function that throws yields exactly one
additional failure-severity finding, appended after the failures the rule
itself recorded, whose message carries the thrown error message and stack
trace; in particular fail("x") followed by a throw yields exactly 2
failures, passed false and exit code 1. -/
theorem C1_error_containment :
    (∀ rule : RuleFunction, ∀ v : ThrownValue, rule.thrown = some v →
      (evaluate rule).results.failures =
        failuresOf rule.actions ++ [⟨ResultLevel.fail, wrapThrown v, none, none⟩]) ∧
    (∀ m st : String, wrapThrown (ThrownValue.err m st)
        = "Review execution failed: " ++ m ++ "\n\nStack trace:\n" ++ st) ∧
    ((evaluate ⟨[Action.fail "x" none none],
        some (ThrownValue.err "boom" "trace")⟩).results.failures.length = 2 ∧
      (evaluate ⟨[Action.fail "x" none none],
        some (ThrownValue.err "boom" "trace")⟩).passed = false ∧
      (evaluate ⟨[Action.fail "x" none none],
        some (ThrownValue.err "boom" "trace")⟩).exitCode = 1) := by
  refine ⟨?_, fun m st => rfl, by decide, by decide, by decide⟩
  intro rule v hv
  show (executeReviewFile (ResultsCollector.reset ResultsCollector.emptyResults)
      rule).failures = _
  rw [executeReviewFile, hv]
  simp only [ResultsCollector.addFailure]
  rw [runActions_failures rule.actions]
  rfl

/-- Witness for C1 at a concrete throwing rule: the failures list is the
rule's own failure followed by the one wrapped error finding. -/
theorem C1_error_containment_witness :
    (evaluate ⟨[Action.fail "x" none none],
        some (ThrownValue.err "boom" "trace")⟩).results.failures =
      failuresOf [Action.fail "x" none none] ++
        [⟨ResultLevel.fail, wrapThrown (ThrownValue.err "boom" "trace"),
          none, none⟩] :=
  C1_error_containment.1
    ⟨[Action.fail "x" none none], some (ThrownValue.err "boom" "trace")⟩
    (ThrownValue.err "boom" "trace") rfl

end Velvet
